import Mathlib

/-!
Shallow embedding of the httptool Go package (request pipeline, functional
options, shared client provider) and proofs of the specification claims.

The embedding follows the single source file of the repository:
the functional-options builder (requestOption, WithContext, WithTimeout,
WithHeaders, WithData, WithLogger, WithSlowThreshold), the generic Request
pipeline, the Get and Post convenience entry points, and the lazily
initialized shared client (GetHttpClient / SetHttpClient).

Effectful collaborators (the network, the clock, request construction by
the Go standard library) are passed in as an explicit environment `Env`, so
that `Request` is a pure function from the environment and the call
arguments to the observable outcome: the Go return triple
(httpStatusCode, respBody, err), plus the dispatched request and the log
events the invocation emitted.
-/

namespace Httptool

/-- Go time.Duration: a signed count of nanoseconds. -/
abbrev Duration := Int

/-- One second, in nanoseconds, as in Go time.Second. -/
def second : Duration := 1000000000

/-- An opaque cancellation context (Go context.Context). Only identity
matters to the claims, so contexts are modelled by an id. -/
structure Context where
  id : Nat
deriving DecidableEq, Repr

/-- Go context.Background(). -/
def Background : Context := ⟨0⟩

/-- An opaque *http.Client value. Only identity matters to the claims. -/
structure Client where
  id : Nat
deriving DecidableEq, Repr

/-- An opaque logger implementing the Interface capability. Only identity
matters to the claims; the pipeline only ever calls Debug or Warn on it,
which the embedding records as emitted LogEvent values. -/
structure Logger where
  id : Nat
deriving DecidableEq, Repr

/-- The process-wide default logger (the package-level Default). -/
def Default : Logger := ⟨0⟩

/-- Go map[string]string, modelled as an association list in which every
key occurs at most once; mapSet overwrites the binding of an existing key,
exactly as a Go map assignment does. -/
abbrev HeaderMap := List (String × String)

/-- Go map assignment m[k] = v: overwrite the existing binding of k if
present, otherwise append a new binding. -/
def mapSet (m : HeaderMap) (k v : String) : HeaderMap :=
  match m with
  | [] => [(k, v)]
  | (k₀, v₀) :: rest =>
      if k₀ = k then (k, v) :: rest else (k₀, v₀) :: mapSet rest k v

/-- Go map lookup m[k]. -/
def mapGet (m : HeaderMap) (k : String) : Option String :=
  match m with
  | [] => none
  | (k₀, v₀) :: rest => if k₀ = k then some v₀ else mapGet rest k

/-- The requestOption builder struct: per-call mutable option state
(ctx, timeout, data, headers, logger, slowThreshold). -/
structure requestOption where
  ctx : Context
  timeout : Duration
  data : List Nat
  headers : HeaderMap
  logger : Logger
  slowThreshold : Duration
deriving DecidableEq, Repr

/-- The Option interface of the source (a single apply method mutating a
requestOption, possibly failing). Mutation is modelled by returning the
updated struct; failure by Except. The source name Option is taken by
Lean's core type, hence ReqOption. -/
def ReqOption := requestOption → Except String requestOption

/-- defaultRequestOptions: background context, 5 second timeout, nil data,
empty headers, the Default logger, zero slow threshold. -/
def defaultRequestOptions : requestOption :=
  { ctx := Background
    timeout := 5 * second
    data := []
    headers := []
    logger := Default
    slowThreshold := 0 }

/-- WithContext replaces the context of the builder. -/
def WithContext (ctx : Context) : ReqOption :=
  fun opts => .ok { opts with ctx := ctx }

/-- WithTimeout replaces the timeout of the builder. -/
def WithTimeout (timeout : Duration) : ReqOption :=
  fun opts => .ok { opts with timeout := timeout }

/-- WithHeaders merges the given map into the builder headers, one Go map
assignment per entry: an existing key is overwritten, a new key is added. -/
def WithHeaders (headers : HeaderMap) : ReqOption :=
  fun opts =>
    .ok { opts with
          headers := headers.foldl (fun m kv => mapSet m kv.1 kv.2) opts.headers }

/-- WithData replaces the request body of the builder. -/
def WithData (data : List Nat) : ReqOption :=
  fun opts => .ok { opts with data := data }

/-- WithLogger replaces the logger of the builder. -/
def WithLogger (l : Logger) : ReqOption :=
  fun opts => .ok { opts with logger := l }

/-- WithSlowThreshold replaces the slow-request threshold of the builder. -/
def WithSlowThreshold (threshold : Duration) : ReqOption :=
  fun opts => .ok { opts with slowThreshold := threshold }

/-- The option-application loop at the top of Request: apply each option in
order, aborting on the first error. -/
def applyOptions (opts : requestOption) : List ReqOption → Except String requestOption
  | [] => .ok opts
  | o :: rest =>
      match o opts with
      | .error e => .error e
      | .ok opts₁ => applyOptions opts₁ rest

/-- Severity of a log emission made by the pipeline (the pipeline only
ever calls Debug or Warn on the logger). -/
inductive LogLevel where
  | debug
  | warn
deriving DecidableEq, Repr

/-- One log emission, with the fields the source passes to the logger:
message tag, method, url, request body, reply (the respBody return value
at the moment the deferred block runs), error, and duration. -/
structure LogEvent where
  level : LogLevel
  msg : String
  method : String
  url : String
  body : List Nat
  reply : List Nat
  err : Option String
  dur : Duration
deriving DecidableEq, Repr

/-- The HTTP response as the pipeline observes it: the status code, the
bytes io.ReadAll would return when draining the body (possibly a partial
prefix), and whether that drain also reported a read error. -/
structure Response where
  statusCode : Nat
  body : List Nat
  readErr : Bool
deriving DecidableEq, Repr

/-- The outbound request handed to client.Do: method, url, the context the
deadline scope was derived from, the timeout it was combined with, the
body bytes, and the headers added to it (one Header.Add per map entry, so
the header set equals the resolved header map). -/
structure OutReq where
  method : String
  url : String
  ctx : Context
  timeout : Duration
  body : List Nat
  headers : HeaderMap
deriving DecidableEq, Repr

/-- The effectful collaborators of one Request invocation: whether
http.NewRequest rejects the method/url pair (and with which error), what
client.Do returns for the dispatched request, and the wall-clock duration
time.Since measures for the call. -/
structure Env where
  newRequestErr : String → String → Option String
  doResult : OutReq → Except String Response
  elapsed : Duration

/-- Which exit path a Request invocation took. -/
inductive ExitPath where
  | optionFail
  | constructFail
  | dispatchFail
  | non200
  | ok
deriving DecidableEq, Repr

/-- Everything observable about one Request invocation: the Go return
triple (httpStatusCode, respBody, err), the log events emitted, the
request that was dispatched (none if dispatch was never reached), and the
exit path taken. -/
structure RequestResult where
  httpStatusCode : Nat
  respBody : List Nat
  err : Option String
  logs : List LogEvent
  sent : Option OutReq
  exit : ExitPath
deriving Repr

/-- The deferred logging block of Request: if slowThreshold is positive
and the measured duration reached it, a Warn emission tagged
HTTP_REQUEST_SLOW_LOG; otherwise a Debug emission tagged
HTTP_REQUEST_DEBUG_LOG. The reply and err fields hold the named return
values as they stand when the deferred block runs. -/
def mkLog (opts : requestOption) (method url : String) (reply : List Nat)
    (err : Option String) (dur : Duration) : LogEvent :=
  if opts.slowThreshold > 0 ∧ dur ≥ opts.slowThreshold then
    { level := .warn, msg := "HTTP_REQUEST_SLOW_LOG", method := method,
      url := url, body := opts.data, reply := reply, err := err, dur := dur }
  else
    { level := .debug, msg := "HTTP_REQUEST_DEBUG_LOG", method := method,
      url := url, body := opts.data, reply := reply, err := err, dur := dur }

/-- The request object as it stands when dispatched: built by
http.NewRequest from method, url and the resolved body, then given the
deadline scope derived from the resolved context and timeout, and the
resolved headers (one Header.Add per map entry, so its header set equals
the resolved header map). -/
def newRequest (method url : String) (r : requestOption) : OutReq :=
  { method := method, url := url, ctx := r.ctx, timeout := r.timeout,
    body := r.data, headers := r.headers }

/-- The generic Request pipeline, translated step for step from the
source: apply the options to the defaults, aborting (with no log) on the
first option error; construct the request, aborting (with no log) on a
construction error; derive the deadline scope from ctx and timeout, add
the headers, and dispatch via the shared client; abort (with no log) on a
dispatch error, because the logging defer is only installed after a
successful dispatch; then classify: a non-200 status yields the status
code, an untouched (empty) respBody and a non 200 error, while status 200
drains the body, discarding any read error, and yields (200, body, nil);
either way the deferred block emits exactly one log event on the way
out. -/
def Request (env : Env) (method url : String) (options : List ReqOption) :
    RequestResult :=
  match applyOptions defaultRequestOptions options with
  | .error e =>
      { httpStatusCode := 0, respBody := [], err := some e,
        logs := [], sent := none, exit := .optionFail }
  | .ok reqOpts =>
      match env.newRequestErr method url with
      | some e =>
          { httpStatusCode := 0, respBody := [], err := some e,
            logs := [], sent := none, exit := .constructFail }
      | none =>
          let req : OutReq := newRequest method url reqOpts
          match env.doResult req with
          | .error e =>
              { httpStatusCode := 0, respBody := [], err := some e,
                logs := [], sent := some req, exit := .dispatchFail }
          | .ok resp =>
              let dur := env.elapsed
              if resp.statusCode ≠ 200 then
                let code := resp.statusCode
                let e := "non 200 response, response code: " ++ toString code
                { httpStatusCode := code, respBody := [],
                  err := some e,
                  logs := [mkLog reqOpts method url [] (some e) dur],
                  sent := some req, exit := .non200 }
              else
                { httpStatusCode := 200, respBody := resp.body, err := none,
                  logs := [mkLog reqOpts method url resp.body none dur],
                  sent := some req, exit := .ok }

/-- Get appends WithContext(ctx) AFTER the caller-supplied options and
delegates to Request with method GET, exactly as the source does. -/
def Get (env : Env) (ctx : Context) (url : String)
    (options : List ReqOption) : RequestResult :=
  Request env "GET" url (options ++ [WithContext ctx])

/-- Post prepends WithHeaders of the default Content-Type header,
WithData of the body and WithContext of the scope BEFORE the
caller-supplied options and delegates to Request with method POST. -/
def Post (env : Env) (ctx : Context) (url : String) (data : List Nat)
    (options : List ReqOption) : RequestResult :=
  Request env "POST" url
    ([WithHeaders [("Content-Type", "application/json")],
      WithData data, WithContext ctx] ++ options)

/-! ## Shared client provider

The package-level state is the client reference (a possibly nil pointer)
and the sync.Once guard. GetHttpClient takes the fast path when the
reference is non-nil; otherwise it runs the once-guarded construction of
the pooled client (the body runs only if the guard has not fired yet) and
returns whatever the reference holds afterwards. SetHttpClient overwrites
the reference, nil included. -/

/-- The pooled client the lazy once-guarded body constructs (fixed
transport parameters; its identity is all the claims need). -/
def pooledClient : Client := ⟨1000⟩

/-- The package-level mutable state: the client reference (none models a
nil *http.Client) and whether the sync.Once guard has fired. -/
structure ClientState where
  client : Option Client
  onceDone : Bool
deriving DecidableEq, Repr

/-- The state at process start: nil client, once not fired. -/
def initialClientState : ClientState := { client := none, onceDone := false }

/-- GetHttpClient: fast path returns a non-nil reference unchanged;
otherwise once.Do runs the construction only if the guard has not fired,
and the current reference is returned either way. -/
def GetHttpClient (s : ClientState) : Option Client × ClientState :=
  match s.client with
  | some c => (some c, s)
  | none =>
      if s.onceDone then
        (s.client, s)
      else
        let s₁ : ClientState := { client := some pooledClient, onceDone := true }
        (s₁.client, s₁)

/-- SetHttpClient overwrites the client reference (nil included) and does
not touch the once guard. -/
def SetHttpClient (c : Option Client) (s : ClientState) : ClientState :=
  { s with client := c }

/-- Run n successive GetHttpClient calls, collecting the returned
references in order. -/
def getN : Nat → ClientState → List (Option Client) × ClientState
  | 0, s => ([], s)
  | n + 1, s =>
      let (r, s₁) := GetHttpClient s
      let (rs, s₂) := getN n s₁
      (r :: rs, s₂)

/-! ## Concrete environments used by counterexamples and witnesses -/

/-- An environment in which construction succeeds, dispatch returns status
200 with body bytes 1,2,3 and no read error, and the measured duration is
7 nanoseconds. -/
def env200 : Env :=
  { newRequestErr := fun _ _ => none
    doResult := fun _ => .ok { statusCode := 200, body := [1, 2, 3], readErr := false }
    elapsed := 7 }

/-- An environment in which construction succeeds, dispatch returns status
500 with a non-empty response body (bytes 9,9), and the measured duration
is 7 nanoseconds. -/
def env500 : Env :=
  { newRequestErr := fun _ _ => none
    doResult := fun _ => .ok { statusCode := 500, body := [9, 9], readErr := false }
    elapsed := 7 }

/-- An environment in which dispatch returns status 200 but draining the
body fails partway: io.ReadAll yields the partial prefix byte 1 together
with a read error, which the pipeline swallows. -/
def envReadFail : Env :=
  { newRequestErr := fun _ _ => none
    doResult := fun _ => .ok { statusCode := 200, body := [1], readErr := true }
    elapsed := 7 }

/-- An option whose apply method fails, exercising the option-application
failure exit path of Request (the Option interface permits failing
options even though none of the built-in ones fail). -/
def failingOption : ReqOption := fun _ => .error "option failure"

/-! ## Interleaved executions of GetHttpClient

A small-step interleaving semantics for unboundedly many goroutines each
running GetHttpClient concurrently, before any SetHttpClient call, under
sequentially consistent shared memory. Each goroutine is at one of the
program points of GetHttpClient: about to take the fast-path read of the
client reference; at the once.Do call; inside the once body before the
client assignment; after the assignment but before once.Do completes
(the assignment happens before the guard is released); at the final read
that produces the return value; or finished with its return value. The
shared state is the client reference, the once guard, and a count of how
many times the pooled-client construction has run. -/

/-- Program location of one goroutine inside GetHttpClient. -/
inductive TLoc where
  | start
  | atOnce
  | inBody
  | bodyDone
  | atReturn
  | finished (ret : Option Client)
deriving DecidableEq, Repr

/-- State of the sync.Once guard: untouched, held by the goroutine
running its body, or completed. A goroutine reaching once.Do while the
guard is held blocks until the guard completes. -/
inductive OnceState where
  | notStarted
  | running (owner : Nat)
  | done
deriving DecidableEq, Repr

/-- A global configuration: the shared client reference, the once guard,
the number of pooled-client constructions that have run, and the program
location of every goroutine (indexed by Nat, so unboundedly many). -/
structure Config where
  client : Option Client
  once : OnceState
  constructed : Nat
  threads : Nat → TLoc

/-- Replace the location of one goroutine. -/
def updateThread (f : Nat → TLoc) (t : Nat) (l : TLoc) : Nat → TLoc :=
  fun u => if u = t then l else f u

/-- The configuration at process start: nil client, guard untouched, no
construction yet, every goroutine about to enter GetHttpClient. -/
def initConfig : Config :=
  { client := none, once := .notStarted, constructed := 0,
    threads := fun _ => .start }

/-- One atomic step of one goroutine: the fast-path read (hitting a
non-nil client and returning it, or missing and falling through to
once.Do), acquiring the untouched guard, skipping the completed guard,
running the construction body (writing the pooled client and counting the
construction), completing the guard, and the final read-and-return. -/
inductive Step : Config → Config → Prop where
  | fastHit (cfg : Config) (t : Nat) (c : Client) :
      cfg.threads t = .start → cfg.client = some c →
      Step cfg { cfg with threads := updateThread cfg.threads t (.finished (some c)) }
  | fastMiss (cfg : Config) (t : Nat) :
      cfg.threads t = .start → cfg.client = none →
      Step cfg { cfg with threads := updateThread cfg.threads t .atOnce }
  | onceAcquire (cfg : Config) (t : Nat) :
      cfg.threads t = .atOnce → cfg.once = .notStarted →
      Step cfg { cfg with once := .running t,
                          threads := updateThread cfg.threads t .inBody }
  | onceSkip (cfg : Config) (t : Nat) :
      cfg.threads t = .atOnce → cfg.once = .done →
      Step cfg { cfg with threads := updateThread cfg.threads t .atReturn }
  | bodyWrite (cfg : Config) (t : Nat) :
      cfg.threads t = .inBody →
      Step cfg { cfg with client := some pooledClient,
                          constructed := cfg.constructed + 1,
                          threads := updateThread cfg.threads t .bodyDone }
  | bodyFinish (cfg : Config) (t : Nat) :
      cfg.threads t = .bodyDone →
      Step cfg { cfg with once := .done,
                          threads := updateThread cfg.threads t .atReturn }
  | retStep (cfg : Config) (t : Nat) :
      cfg.threads t = .atReturn →
      Step cfg { cfg with threads := updateThread cfg.threads t (.finished cfg.client) }

/-- A configuration reachable from process start by interleaved steps. -/
def Reachable : Config → Prop := Relation.ReflTransGen Step initConfig

/-- The inductive invariant of the interleaved semantics: at most one
construction ever runs, the client reference is nil or the pooled client,
a pooled client reference means the construction has run exactly once,
every finished goroutine returned the pooled client, and phase facts tied
to the once guard (untouched: nothing constructed and nobody past the
fast path; held: exactly the owner is in the body, and the world splits
on whether the client write has happened; completed: the pooled client is
in place and nobody is still inside the body). -/
structure Inv (cfg : Config) : Prop where
  cons_le : cfg.constructed ≤ 1
  client_val : cfg.client = none ∨ cfg.client = some pooledClient
  client_cons : cfg.client = some pooledClient → cfg.constructed = 1
  finished_val : ∀ t r, cfg.threads t = .finished r → r = some pooledClient
  phase_not : cfg.once = .notStarted →
    cfg.client = none ∧ cfg.constructed = 0 ∧
    ∀ t, cfg.threads t = .start ∨ cfg.threads t = .atOnce
  phase_run : ∀ o, cfg.once = .running o →
    (∀ t, cfg.threads t ≠ .atReturn) ∧
    (∀ t, t ≠ o → cfg.threads t ≠ .inBody ∧ cfg.threads t ≠ .bodyDone) ∧
    ((cfg.threads o = .inBody ∧ cfg.client = none ∧ cfg.constructed = 0 ∧
        ∀ t r, cfg.threads t ≠ .finished r) ∨
     (cfg.threads o = .bodyDone ∧ cfg.client = some pooledClient ∧
        cfg.constructed = 1))
  phase_done : cfg.once = .done →
    cfg.client = some pooledClient ∧ cfg.constructed = 1 ∧
    ∀ t, cfg.threads t ≠ .inBody ∧ cfg.threads t ≠ .bodyDone

/-- Goroutine 0 after its fast-path miss. -/
def trace1 : Config :=
  { client := none, once := .notStarted, constructed := 0,
    threads := updateThread (fun _ => .start) 0 .atOnce }

/-- Goroutine 0 after acquiring the once guard. -/
def trace2 : Config :=
  { client := none, once := .running 0, constructed := 0,
    threads := updateThread (updateThread (fun _ => .start) 0 .atOnce) 0 .inBody }

/-- Goroutine 0 after writing the pooled client inside the once body. -/
def trace3 : Config :=
  { client := some pooledClient, once := .running 0, constructed := 1,
    threads := updateThread (updateThread (updateThread (fun _ => .start) 0
      .atOnce) 0 .inBody) 0 .bodyDone }

/-- Goroutine 0 after completing the once guard. -/
def trace4 : Config :=
  { client := some pooledClient, once := .done, constructed := 1,
    threads := updateThread (updateThread (updateThread (updateThread
      (fun _ => .start) 0 .atOnce) 0 .inBody) 0 .bodyDone) 0 .atReturn }

/-- Goroutine 0 finished, having returned the pooled client. -/
def trace5 : Config :=
  { client := some pooledClient, once := .done, constructed := 1,
    threads := updateThread (updateThread (updateThread (updateThread
      (updateThread (fun _ => .start) 0 .atOnce) 0 .inBody) 0 .bodyDone) 0
      .atReturn) 0 (.finished (some pooledClient)) }

/-! ## Helper lemmas -/

/-- Option application distributes over list append: the second batch is
applied to the outcome of the first, and an error in the first batch
short-circuits. -/
theorem applyOptions_append (l₁ l₂ : List ReqOption) (o : requestOption) :
    applyOptions o (l₁ ++ l₂) =
      match applyOptions o l₁ with
      | .error e => .error e
      | .ok r => applyOptions r l₂ := by
  induction l₁ generalizing o with
  | nil => rfl
  | cons x xs ih =>
      simp only [List.cons_append, applyOptions]
      cases x o with
      | error e => rfl
      | ok r => exact ih r

/-- Looking up a key just assigned into a Go map yields the assigned
value. -/
theorem mapGet_mapSet_self (m : HeaderMap) (k v : String) :
    mapGet (mapSet m k v) k = some v := by
  induction m with
  | nil => simp [mapSet, mapGet]
  | cons kv rest ih =>
      by_cases h : kv.1 = k
      · simp [mapSet, mapGet, h]
      · simp [mapSet, mapGet, h, ih]

/-- Whenever Request dispatched a request, that request is built exactly
from the method, the url and the resolved options: their context,
timeout, body data and header map. -/
theorem request_sent_eq (env : Env) (m u : String) (opts : List ReqOption)
    (r : requestOption) (req : OutReq)
    (h1 : applyOptions defaultRequestOptions opts = .ok r)
    (h : (Request env m u opts).sent = some req) :
    req = newRequest m u r := by
  unfold Request at h
  rw [h1] at h
  dsimp only at h
  split at h
  · exact absurd h (by simp)
  · split at h
    · exact (Option.some.inj h).symm
    · split at h
      · exact (Option.some.inj h).symm
      · exact (Option.some.inj h).symm

/-- The severity the deferred logging block chooses: Warn exactly when
the slow threshold is positive and the measured duration reached it. -/
theorem mkLog_level (opts : requestOption) (m u : String) (reply : List Nat)
    (err : Option String) (dur : Duration) :
    (mkLog opts m u reply err dur).level =
      if opts.slowThreshold > 0 ∧ dur ≥ opts.slowThreshold then
        LogLevel.warn
      else LogLevel.debug := by
  unfold mkLog
  split
  · simp_all
  · simp_all

/-! ## C1: log emissions per invocation -/

/-- C1, counterexample: the claim says every exit path of Request,
including an option-application failure, emits exactly one log event. On
the option-failure path the code returns before the logging defer is
installed: this concrete invocation takes that exit path and emits zero
log events, not one. -/
theorem request_every_path_logs_counterexample :
    (Request env200 "GET" "u" [failingOption]).logs = [] ∧
    (Request env200 "GET" "u" [failingOption]).exit = ExitPath.optionFail :=
  ⟨rfl, rfl⟩

/-- C1, amended: exactly one Debug-or-Warn log event is emitted on the
invocations whose dispatch returned a response (the non-200 and success
exits), and zero log events on the earlier exits (option-application
failure, request-construction failure, dispatch failure), because the
deferred logging block is only installed after a successful dispatch. In
particular no invocation ever emits more than one log event. -/
theorem request_log_count (env : Env) (m u : String) (opts : List ReqOption) :
    (Request env m u opts).logs.length =
      match (Request env m u opts).exit with
      | .non200 => 1
      | .ok => 1
      | _ => 0 := by
  unfold Request
  dsimp only
  split
  · rfl
  · split
    · rfl
    · split
      · rfl
      · split
        · rfl
        · rfl

/-! ## C2: the context Get applies -/

/-- C2, counterexample: the claim says Get applies its scope before the
caller options, so a caller-supplied WithContext overrides it. In this
concrete invocation the caller supplies WithContext for context 3 while
the Get scope is context 7, and the dispatched request carries context 7,
not the caller's context 3. -/
theorem get_context_override_counterexample :
    ((Get env200 ⟨7⟩ "u" [WithContext ⟨3⟩]).sent.map OutReq.ctx) = some ⟨7⟩ ∧
    Context.mk 7 ≠ Context.mk 3 :=
  ⟨rfl, by decide⟩

/-- C2, amended: Get behaves as the generic Request with method GET and
the scope ctx appended AFTER the caller-supplied options, so under
last-writer-wins the scope ctx overrides any caller-supplied WithContext:
whenever the caller options resolve successfully, the fully resolved
option state carries ctx as its context, whatever the caller options
set. -/
theorem get_scope_applied_last (env : Env) (ctx : Context) (url : String)
    (opts : List ReqOption) (r : requestOption)
    (h : applyOptions defaultRequestOptions opts = .ok r) :
    Get env ctx url opts = Request env "GET" url (opts ++ [WithContext ctx]) ∧
    applyOptions defaultRequestOptions (opts ++ [WithContext ctx]) =
      .ok { r with ctx := ctx } := by
  refine ⟨rfl, ?_⟩
  rw [applyOptions_append, h]
  rfl

/-- C2, witness: the amended theorem applied to a caller that supplies
WithContext for context 3 while the Get scope is context 7: the resolved
context is 7. -/
theorem get_scope_applied_last_witness :
    Get env200 ⟨7⟩ "u" [WithContext ⟨3⟩] =
      Request env200 "GET" "u" ([WithContext ⟨3⟩] ++ [WithContext ⟨7⟩]) ∧
    applyOptions defaultRequestOptions ([WithContext ⟨3⟩] ++ [WithContext ⟨7⟩]) =
      .ok { defaultRequestOptions with ctx := ⟨7⟩ } :=
  get_scope_applied_last env200 ⟨7⟩ "u" [WithContext ⟨3⟩]
    { defaultRequestOptions with ctx := ⟨3⟩ } rfl

/-! ## C3: same header key set by two option applications -/

/-- C3, counterexample: the claim says a header key set by two different
option applications accumulates both values on the outgoing request. In
this concrete invocation the key K is set to v1 and then to v2 by two
WithHeaders applications, and the dispatched request carries only
("K", "v2"): the first value is gone, overwritten, not accumulated. -/
theorem header_accumulate_counterexample :
    ((Request env200 "GET" "u"
        [WithHeaders [("K", "v1")], WithHeaders [("K", "v2")]]).sent.map
      OutReq.headers) = some [("K", "v2")] ∧
    "v1" ≠ "v2" :=
  ⟨rfl, by decide⟩

/-- C3, amended: a header key set via two different option applications
is overwritten, not accumulated: the builder keeps headers in a Go map
whose assignment replaces the previous binding, so only the value from
the last application for that key reaches the outgoing request. -/
theorem request_same_key_last_wins (env : Env) (m u : String)
    (os : List ReqOption) (k v₁ v₂ : String) (r₀ : requestOption)
    (req : OutReq)
    (h₀ : applyOptions defaultRequestOptions os = .ok r₀)
    (h : (Request env m u
           (os ++ [WithHeaders [(k, v₁)], WithHeaders [(k, v₂)]])).sent =
         some req) :
    mapGet req.headers k = some v₂ := by
  have hall : applyOptions defaultRequestOptions
      (os ++ [WithHeaders [(k, v₁)], WithHeaders [(k, v₂)]]) =
      .ok { r₀ with headers := mapSet (mapSet r₀.headers k v₁) k v₂ } := by
    rw [applyOptions_append, h₀]
    rfl
  have hreq := request_sent_eq env m u
    (os ++ [WithHeaders [(k, v₁)], WithHeaders [(k, v₂)]])
    { r₀ with headers := mapSet (mapSet r₀.headers k v₁) k v₂ } req hall h
  rw [hreq]
  exact mapGet_mapSet_self _ k v₂

/-- C3, witness: the amended theorem applied to a concrete invocation
setting K to v1 and then to v2: the dispatched request maps K to v2. -/
theorem request_same_key_last_wins_witness :
    mapGet
      (OutReq.headers
        { method := "GET", url := "u", ctx := Background,
          timeout := 5 * second, body := [],
          headers := mapSet (mapSet [] "K" "v1") "K" "v2" }) "K" = some "v2" :=
  request_same_key_last_wins env200 "GET" "u" [] "K" "v1" "v2"
    defaultRequestOptions
    { method := "GET", url := "u", ctx := Background, timeout := 5 * second,
      body := [], headers := mapSet (mapSet [] "K" "v1") "K" "v2" }
    rfl rfl

/-! ## C4: non-200 result -/

/-- C4, counterexample: the claim says a non-200 response yields the
triple (code, responseBody, non-nil error) with the (partial or full)
response body. In this concrete invocation the response has status 500
and the non-empty body 9,9, yet Request returns an empty body: the
response body is never drained on the non-200 path. The code and the
error message are as claimed. -/
theorem non200_body_counterexample :
    (Request env500 "GET" "u" []).httpStatusCode = 500 ∧
    (Request env500 "GET" "u" []).respBody = [] ∧
    ([] : List Nat) ≠ [9, 9] ∧
    (Request env500 "GET" "u" []).err =
      some "non 200 response, response code: 500" :=
  ⟨rfl, rfl, by decide, rfl⟩

/-- C4, amended: a dispatched request whose response status is not 200
returns the triple (code, empty body, non-nil error) whose message embeds
the status code; the response body is not drained on this path, so the
returned body is always empty rather than the response body. -/
theorem request_non200_result (env : Env) (m u : String)
    (opts : List ReqOption)
    (h : (Request env m u opts).exit = ExitPath.non200) :
    (Request env m u opts).respBody = [] ∧
    (Request env m u opts).err =
      some ("non 200 response, response code: " ++
        toString (Request env m u opts).httpStatusCode) ∧
    (Request env m u opts).httpStatusCode ≠ 200 := by
  cases ha : applyOptions defaultRequestOptions opts with
  | error e =>
      unfold Request at h
      rw [ha] at h
      simp at h
  | ok r =>
      cases hn : env.newRequestErr m u with
      | some e =>
          unfold Request at h
          rw [ha] at h
          dsimp only at h
          rw [hn] at h
          simp at h
      | none =>
          cases hd : env.doResult (newRequest m u r) with
          | error e =>
              unfold Request at h
              rw [ha] at h
              dsimp only at h
              rw [hn] at h
              dsimp only at h
              rw [hd] at h
              simp at h
          | ok resp =>
              by_cases hs : resp.statusCode = 200
              · unfold Request at h
                rw [ha] at h
                dsimp only at h
                rw [hn] at h
                dsimp only at h
                rw [hd] at h
                dsimp only at h
                rw [if_neg (by simp [hs])] at h
                simp at h
              · unfold Request
                rw [ha]
                dsimp only
                rw [hn]
                dsimp only
                rw [hd]
                dsimp only
                rw [if_pos (by simp [hs])]
                exact ⟨rfl, rfl, hs⟩

/-- C4, witness: the amended theorem applied to a concrete 500 response
whose body is non-empty. -/
theorem request_non200_result_witness :
    (Request env500 "GET" "u" []).respBody = [] ∧
    (Request env500 "GET" "u" []).err =
      some ("non 200 response, response code: " ++
        toString (Request env500 "GET" "u" []).httpStatusCode) ∧
    (Request env500 "GET" "u" []).httpStatusCode ≠ 200 :=
  request_non200_result env500 "GET" "u" [] rfl

/-! ## C5: status 200 result -/

/-- C5, confirmed: a dispatched request whose response status is exactly
200 returns (200, B, nil) where B is whatever draining the body yielded;
the hypothesis set places no condition on resp.readErr, so a read failure
while draining (readErr true, B a partial prefix) is swallowed and the
error result is still nil. -/
theorem request_status200_success (env : Env) (m u : String)
    (opts : List ReqOption) (r : requestOption) (resp : Response)
    (h₁ : applyOptions defaultRequestOptions opts = .ok r)
    (h₂ : env.newRequestErr m u = none)
    (h₃ : env.doResult (newRequest m u r) = .ok resp)
    (h₄ : resp.statusCode = 200) :
    (Request env m u opts).httpStatusCode = 200 ∧
    (Request env m u opts).respBody = resp.body ∧
    (Request env m u opts).err = none := by
  unfold Request
  rw [h₁]
  dsimp only
  rw [h₂]
  dsimp only
  rw [h₃]
  dsimp only
  rw [if_neg (by simp [h₄])]
  exact ⟨rfl, rfl, rfl⟩

/-- C5, witness: the theorem applied to an environment whose body drain
fails partway (readErr true, only the prefix byte 1 read): the result is
still (200, partial body, nil). -/
theorem request_status200_success_witness :
    (Request envReadFail "GET" "u" []).httpStatusCode = 200 ∧
    (Request envReadFail "GET" "u" []).respBody = [1] ∧
    (Request envReadFail "GET" "u" []).err = none :=
  request_status200_success envReadFail "GET" "u" [] defaultRequestOptions
    { statusCode := 200, body := [1], readErr := true } rfl rfl rfl rfl

/-! ## C6: slow-request classification -/

/-- C6, counterexample: the claim says a set (non-zero) slowThreshold
with elapsed ≥ slowThreshold emits a WARN event and no DEBUG event. With
the non-zero threshold -1 and elapsed duration 7 ≥ -1, this concrete
invocation emits a DEBUG event and no WARN event: the code tests
slowThreshold > 0, not slowThreshold ≠ 0. -/
theorem negative_threshold_counterexample :
    (Request env200 "GET" "u" [WithSlowThreshold (-1)]).logs.map
        LogEvent.level = [LogLevel.debug] ∧
    (-1 : Duration) ≠ 0 ∧
    env200.elapsed ≥ (-1 : Duration) :=
  ⟨rfl, by decide, by decide⟩

/-- C6, amended: on every invocation that reaches the logging step, if
the resolved slowThreshold is positive and the measured elapsed duration
is ≥ it, exactly one WARN-level event is emitted and no DEBUG event;
otherwise exactly one DEBUG-level event and no WARN event; a slowThreshold
≤ 0 (zero/unset included) disables slow classification entirely. -/
theorem request_log_severity (env : Env) (m u : String)
    (opts : List ReqOption) (r : requestOption)
    (h₁ : applyOptions defaultRequestOptions opts = .ok r)
    (h₂ : (Request env m u opts).exit = ExitPath.non200 ∨
          (Request env m u opts).exit = ExitPath.ok) :
    (Request env m u opts).logs.map LogEvent.level =
      [if r.slowThreshold > 0 ∧ env.elapsed ≥ r.slowThreshold then
         LogLevel.warn
       else LogLevel.debug] := by
  cases hn : env.newRequestErr m u with
  | some e =>
      unfold Request at h₂
      rw [h₁] at h₂
      dsimp only at h₂
      rw [hn] at h₂
      simp at h₂
  | none =>
      cases hd : env.doResult (newRequest m u r) with
      | error e =>
          unfold Request at h₂
          rw [h₁] at h₂
          dsimp only at h₂
          rw [hn] at h₂
          dsimp only at h₂
          rw [hd] at h₂
          simp at h₂
      | ok resp =>
          unfold Request
          rw [h₁]
          dsimp only
          rw [hn]
          dsimp only
          rw [hd]
          dsimp only
          by_cases hs : resp.statusCode = 200
          · rw [if_neg (by simp [hs])]
            simp [mkLog_level]
          · rw [if_pos (by simp [hs])]
            simp [mkLog_level]

/-- C6, witness: the amended theorem applied to a resolved threshold of 5
with elapsed duration 7: exactly one WARN event. -/
theorem request_log_severity_witness :
    (Request env200 "GET" "u" [WithSlowThreshold 5]).logs.map
        LogEvent.level =
      [if (5 : Duration) > 0 ∧ env200.elapsed ≥ (5 : Duration) then
         LogLevel.warn
       else LogLevel.debug] :=
  request_log_severity env200 "GET" "u" [WithSlowThreshold 5]
    { defaultRequestOptions with slowThreshold := 5 } rfl (Or.inr rfl)

/-! ## C7: explicit override wins -/

/-- C7, confirmed: from any provider state s (override before or after
first use alike), after SetHttpClient with client c every run of n
subsequent GetHttpClient calls returns exactly c every time, and the
provider state is unchanged throughout: the lazy once-guarded
initialization never runs (the state mutation it would perform does not
happen), the client is not recreated, and the override is not ignored. -/
theorem setHttpClient_override_persists (c : Client) (s : ClientState)
    (n : Nat) :
    getN n (SetHttpClient (some c) s) =
      (List.replicate n (some c), SetHttpClient (some c) s) := by
  induction n with
  | zero => rfl
  | succ k ih =>
      have hstep : GetHttpClient (SetHttpClient (some c) s) =
          (some c, SetHttpClient (some c) s) := rfl
      simp only [getN, hstep, List.replicate, ih]

/-! ## C8: Post default options -/

/-- C8, confirmed: Post is the generic Request with method POST and the
default Content-Type application/json header, the body and the scope
applied before the caller-supplied options; resolving those three
defaults alone yields exactly that header map, body and context, so a
Post with no caller options dispatches a request carrying the
Content-Type application/json header, the given body and the given
scope — while caller options, applied afterwards, can still override. -/
theorem post_default_options (env : Env) (ctx : Context) (url : String)
    (d : List Nat) (opts : List ReqOption) :
    Post env ctx url d opts =
      Request env "POST" url
        ([WithHeaders [("Content-Type", "application/json")], WithData d,
          WithContext ctx] ++ opts) ∧
    applyOptions defaultRequestOptions
        [WithHeaders [("Content-Type", "application/json")], WithData d,
         WithContext ctx] =
      .ok { defaultRequestOptions with
            headers := [("Content-Type", "application/json")],
            data := d, ctx := ctx } ∧
    ∀ req : OutReq, (Post env ctx url d []).sent = some req →
      req.headers = [("Content-Type", "application/json")] ∧
      req.body = d ∧ req.ctx = ctx ∧ req.method = "POST" := by
  have hres : applyOptions defaultRequestOptions
      [WithHeaders [("Content-Type", "application/json")], WithData d,
       WithContext ctx] =
      .ok { defaultRequestOptions with
            headers := [("Content-Type", "application/json")],
            data := d, ctx := ctx } := rfl
  refine ⟨rfl, hres, ?_⟩
  intro req h
  have hreq := request_sent_eq env "POST" url
    ([WithHeaders [("Content-Type", "application/json")], WithData d,
      WithContext ctx] ++ [])
    { defaultRequestOptions with
      headers := [("Content-Type", "application/json")],
      data := d, ctx := ctx } req (by rw [List.append_nil]; exact hres) h
  rw [hreq]
  exact ⟨rfl, rfl, rfl, rfl⟩

/-- C8, witness: the theorem applied to a concrete Post of body bytes 5,6
under scope 7 with no caller options: the dispatched request carries the
Content-Type application/json header, the body and the scope. -/
theorem post_default_options_witness :
    (newRequest "POST" "u"
      { defaultRequestOptions with
        headers := [("Content-Type", "application/json")],
        data := [5, 6], ctx := ⟨7⟩ }).headers =
        [("Content-Type", "application/json")] ∧
    (newRequest "POST" "u"
      { defaultRequestOptions with
        headers := [("Content-Type", "application/json")],
        data := [5, 6], ctx := ⟨7⟩ }).body = [5, 6] ∧
    (newRequest "POST" "u"
      { defaultRequestOptions with
        headers := [("Content-Type", "application/json")],
        data := [5, 6], ctx := ⟨7⟩ }).ctx = ⟨7⟩ ∧
    (newRequest "POST" "u"
      { defaultRequestOptions with
        headers := [("Content-Type", "application/json")],
        data := [5, 6], ctx := ⟨7⟩ }).method = "POST" :=
  (post_default_options env200 ⟨7⟩ "u" [5, 6] []).2.2
    (newRequest "POST" "u"
      { defaultRequestOptions with
        headers := [("Content-Type", "application/json")],
        data := [5, 6], ctx := ⟨7⟩ }) rfl

/-! ## C10: SetHttpClient(nil) after a GetHttpClient call -/

/-- C10, counterexample: the claim quantifies over every call sequence in
which GetHttpClient has been called at least once before SetHttpClient
nil. In this concrete sequence a client is set first, so the one Get call
takes the fast path and does NOT consume the once guard; after
SetHttpClient nil the next GetHttpClient runs the lazy construction and
returns the pooled client, not nil. -/
theorem setNil_counterexample :
    (getN 1 (SetHttpClient none
      (getN 1 (SetHttpClient (some ⟨42⟩) initialClientState)).2)).1 =
      [some pooledClient] ∧
    some pooledClient ≠ (none : Option Client) :=
  ⟨rfl, by decide⟩

/-- C10, amended: in every call sequence in which the lazy initialization
of GetHttpClient has actually run (the once guard is consumed, as after a
GetHttpClient call made while no client was set), once SetHttpClient nil
is called every subsequent GetHttpClient call returns nil and leaves the
state unchanged: the pooled client is never re-constructed and the
provider is permanently left with no client. -/
theorem setNil_after_init_returns_nil (s : ClientState) (n : Nat)
    (h : s.onceDone = true) :
    getN n (SetHttpClient none s) =
      (List.replicate n none, SetHttpClient none s) := by
  induction n with
  | zero => rfl
  | succ k ih =>
      have hstep : GetHttpClient (SetHttpClient none s) =
          (none, SetHttpClient none s) := by
        simp [GetHttpClient, SetHttpClient, h]
      simp only [getN, hstep, List.replicate, ih]

/-- C10, witness: the amended theorem applied to the state after one
GetHttpClient call from process start (which consumes the once guard):
after SetHttpClient nil, two further GetHttpClient calls both return
nil. -/
theorem setNil_after_init_returns_nil_witness :
    (GetHttpClient initialClientState).2.onceDone = true ∧
    getN 2 (SetHttpClient none (GetHttpClient initialClientState).2) =
      ([none, none],
       SetHttpClient none (GetHttpClient initialClientState).2) :=
  ⟨rfl, setNil_after_init_returns_nil (GetHttpClient initialClientState).2 2 rfl⟩

/-! ## C9: concurrent lazy initialization -/


/-- Updating a goroutine location and reading it back. -/
theorem updateThread_self (f : Nat → TLoc) (t : Nat) (l : TLoc) :
    updateThread f t l t = l := by
  simp [updateThread]

/-- Updating one goroutine location leaves the others unchanged. -/
theorem updateThread_other (f : Nat → TLoc) (t : Nat) (l : TLoc) (u : Nat)
    (h : u ≠ t) : updateThread f t l u = f u := by
  simp [updateThread, h]

/-- The invariant holds at process start. -/
theorem inv_init : Inv initConfig := by
  refine ⟨?_, ?_, ?_, ?_, ?_, ?_, ?_⟩
  · exact Nat.zero_le 1
  · exact Or.inl rfl
  · intro h; exact Option.noConfusion h
  · intro t r h; exact TLoc.noConfusion h
  · intro _; exact ⟨rfl, rfl, fun t => Or.inl rfl⟩
  · intro o h; exact OnceState.noConfusion h
  · intro h; exact OnceState.noConfusion h

/-- The invariant is preserved by every interleaved step. -/
theorem inv_step {c₁ c₂ : Config} (inv : Inv c₁) (st : Step c₁ c₂) :
    Inv c₂ := by
  obtain ⟨le1, cv, cc, fv, pn, pr, pd⟩ := inv
  cases st with
  | fastHit t c ht hc =>
      have hcp : c = pooledClient := by
        rcases cv with h | h
        · rw [hc] at h; exact Option.noConfusion h
        · rw [hc] at h; exact Option.some.inj h
      subst hcp
      refine ⟨?_, ?_, ?_, ?_, ?_, ?_, ?_⟩ <;> dsimp only
      · exact le1
      · exact cv
      · exact cc
      · intro u r hu
        by_cases hut : u = t
        · subst hut
          rw [updateThread_self] at hu
          exact (TLoc.finished.inj hu).symm
        · rw [updateThread_other _ _ _ _ hut] at hu
          exact fv u r hu
      · intro ho
        obtain ⟨h1, _, _⟩ := pn ho
        rw [h1] at hc
        exact Option.noConfusion hc
      · intro o ho
        obtain ⟨nr, nib, hdisj⟩ := pr o ho
        refine ⟨?_, ?_, ?_⟩
        · intro u
          by_cases hut : u = t
          · subst hut
            rw [updateThread_self]
            exact fun hh => TLoc.noConfusion hh
          · rw [updateThread_other _ _ _ _ hut]
            exact nr u
        · intro u huo
          by_cases hut : u = t
          · subst hut
            rw [updateThread_self]
            exact ⟨fun hh => TLoc.noConfusion hh, fun hh => TLoc.noConfusion hh⟩
          · rw [updateThread_other _ _ _ _ hut]
            exact nib u huo
        · rcases hdisj with ⟨_, hcl, _, _⟩ | ⟨hb, hcl, hcn⟩
          · rw [hcl] at hc
            exact Option.noConfusion hc
          · have hto : t ≠ o := by
              intro hh
              rw [hh] at ht
              rw [ht] at hb
              exact TLoc.noConfusion hb
            right
            refine ⟨?_, hcl, hcn⟩
            rw [updateThread_other _ _ _ _ (Ne.symm hto)]
            exact hb
      · intro ho
        obtain ⟨h1, h2, h3⟩ := pd ho
        refine ⟨h1, h2, fun u => ?_⟩
        by_cases hut : u = t
        · subst hut
          rw [updateThread_self]
          exact ⟨fun hh => TLoc.noConfusion hh, fun hh => TLoc.noConfusion hh⟩
        · rw [updateThread_other _ _ _ _ hut]
          exact h3 u
  | fastMiss t ht hc =>
      refine ⟨?_, ?_, ?_, ?_, ?_, ?_, ?_⟩ <;> dsimp only
      · exact le1
      · exact cv
      · exact cc
      · intro u r hu
        by_cases hut : u = t
        · subst hut
          rw [updateThread_self] at hu
          exact TLoc.noConfusion hu
        · rw [updateThread_other _ _ _ _ hut] at hu
          exact fv u r hu
      · intro ho
        obtain ⟨h1, h2, h3⟩ := pn ho
        refine ⟨h1, h2, fun u => ?_⟩
        by_cases hut : u = t
        · subst hut
          rw [updateThread_self]
          exact Or.inr rfl
        · rw [updateThread_other _ _ _ _ hut]
          exact h3 u
      · intro o ho
        obtain ⟨nr, nib, hdisj⟩ := pr o ho
        refine ⟨?_, ?_, ?_⟩
        · intro u
          by_cases hut : u = t
          · subst hut
            rw [updateThread_self]
            exact fun hh => TLoc.noConfusion hh
          · rw [updateThread_other _ _ _ _ hut]
            exact nr u
        · intro u huo
          by_cases hut : u = t
          · subst hut
            rw [updateThread_self]
            exact ⟨fun hh => TLoc.noConfusion hh, fun hh => TLoc.noConfusion hh⟩
          · rw [updateThread_other _ _ _ _ hut]
            exact nib u huo
        · rcases hdisj with ⟨hb, hcl, hcn, hnf⟩ | ⟨hb, hcl, hcn⟩
          · have hto : t ≠ o := by
              intro hh
              rw [hh] at ht
              rw [ht] at hb
              exact TLoc.noConfusion hb
            left
            refine ⟨?_, hcl, hcn, ?_⟩
            · rw [updateThread_other _ _ _ _ (Ne.symm hto)]
              exact hb
            · intro u r
              by_cases hut : u = t
              · subst hut
                rw [updateThread_self]
                exact fun hh => TLoc.noConfusion hh
              · rw [updateThread_other _ _ _ _ hut]
                exact hnf u r
          · have hto : t ≠ o := by
              intro hh
              rw [hh] at ht
              rw [ht] at hb
              exact TLoc.noConfusion hb
            right
            refine ⟨?_, hcl, hcn⟩
            rw [updateThread_other _ _ _ _ (Ne.symm hto)]
            exact hb
      · intro ho
        obtain ⟨h1, h2, h3⟩ := pd ho
        refine ⟨h1, h2, fun u => ?_⟩
        by_cases hut : u = t
        · subst hut
          rw [updateThread_self]
          exact ⟨fun hh => TLoc.noConfusion hh, fun hh => TLoc.noConfusion hh⟩
        · rw [updateThread_other _ _ _ _ hut]
          exact h3 u
  | onceAcquire t ht ho =>
      obtain ⟨hcl, hc0, hall⟩ := pn ho
      refine ⟨?_, ?_, ?_, ?_, ?_, ?_, ?_⟩ <;> dsimp only
      · exact le1
      · exact Or.inl hcl
      · intro h
        rw [hcl] at h
        exact Option.noConfusion h
      · intro u r hu
        by_cases hut : u = t
        · subst hut
          rw [updateThread_self] at hu
          exact TLoc.noConfusion hu
        · rw [updateThread_other _ _ _ _ hut] at hu
          rcases hall u with h | h
          · rw [h] at hu; exact TLoc.noConfusion hu
          · rw [h] at hu; exact TLoc.noConfusion hu
      · intro h
        exact OnceState.noConfusion h
      · intro o h
        have hto : t = o := OnceState.running.inj h
        subst hto
        refine ⟨?_, ?_, ?_⟩
        · intro u
          by_cases hut : u = t
          · subst hut
            rw [updateThread_self]
            exact fun hh => TLoc.noConfusion hh
          · rw [updateThread_other _ _ _ _ hut]
            rcases hall u with hh | hh
            · rw [hh]; exact fun hx => TLoc.noConfusion hx
            · rw [hh]; exact fun hx => TLoc.noConfusion hx
        · intro u hut
          rw [updateThread_other _ _ _ _ hut]
          rcases hall u with hh | hh
          · rw [hh]
            exact ⟨fun hx => TLoc.noConfusion hx, fun hx => TLoc.noConfusion hx⟩
          · rw [hh]
            exact ⟨fun hx => TLoc.noConfusion hx, fun hx => TLoc.noConfusion hx⟩
        · left
          refine ⟨updateThread_self _ _ _, hcl, hc0, ?_⟩
          intro u r
          by_cases hut : u = t
          · subst hut
            rw [updateThread_self]
            exact fun hh => TLoc.noConfusion hh
          · rw [updateThread_other _ _ _ _ hut]
            rcases hall u with hh | hh
            · rw [hh]; exact fun hx => TLoc.noConfusion hx
            · rw [hh]; exact fun hx => TLoc.noConfusion hx
      · intro h
        exact OnceState.noConfusion h
  | onceSkip t ht ho =>
      obtain ⟨hcl, hc1, hnb⟩ := pd ho
      refine ⟨?_, ?_, ?_, ?_, ?_, ?_, ?_⟩ <;> dsimp only
      · exact le1
      · exact cv
      · exact cc
      · intro u r hu
        by_cases hut : u = t
        · subst hut
          rw [updateThread_self] at hu
          exact TLoc.noConfusion hu
        · rw [updateThread_other _ _ _ _ hut] at hu
          exact fv u r hu
      · intro h
        rw [ho] at h
        exact OnceState.noConfusion h
      · intro o h
        rw [ho] at h
        exact OnceState.noConfusion h
      · intro _
        refine ⟨hcl, hc1, fun u => ?_⟩
        by_cases hut : u = t
        · subst hut
          rw [updateThread_self]
          exact ⟨fun hh => TLoc.noConfusion hh, fun hh => TLoc.noConfusion hh⟩
        · rw [updateThread_other _ _ _ _ hut]
          exact hnb u
  | bodyWrite t ht =>
      cases hones : c₁.once with
      | notStarted =>
          obtain ⟨_, _, hall⟩ := pn hones
          rcases hall t with h | h
          · rw [ht] at h; exact TLoc.noConfusion h
          · rw [ht] at h; exact TLoc.noConfusion h
      | running o =>
          obtain ⟨nr, nib, hdisj⟩ := pr o hones
          have hto : t = o := by
            by_cases h : t = o
            · exact h
            · exact absurd ht (nib t h).1
          subst hto
          rcases hdisj with ⟨hb, hcl, hc0, hnf⟩ | ⟨hb, _, _⟩
          · refine ⟨?_, ?_, ?_, ?_, ?_, ?_, ?_⟩ <;> dsimp only
            · rw [hc0]
            · exact Or.inr rfl
            · intro _
              rw [hc0]
            · intro u r hu
              by_cases hut : u = t
              · subst hut
                rw [updateThread_self] at hu
                exact TLoc.noConfusion hu
              · rw [updateThread_other _ _ _ _ hut] at hu
                exact absurd hu (hnf u r)
            · intro h
              exact OnceState.noConfusion h
            · intro o₂ h
              have hto₂ : t = o₂ := OnceState.running.inj h
              subst hto₂
              refine ⟨?_, ?_, ?_⟩
              · intro u
                by_cases hut : u = t
                · subst hut
                  rw [updateThread_self]
                  exact fun hh => TLoc.noConfusion hh
                · rw [updateThread_other _ _ _ _ hut]
                  exact nr u
              · intro u hut
                rw [updateThread_other _ _ _ _ hut]
                exact nib u hut
              · right
                refine ⟨updateThread_self _ _ _, rfl, ?_⟩
                rw [hc0]
            · intro h
              exact OnceState.noConfusion h
          · rw [ht] at hb
            exact TLoc.noConfusion hb
      | done =>
          exact absurd ht ((pd hones).2.2 t).1
  | bodyFinish t ht =>
      cases hones : c₁.once with
      | notStarted =>
          obtain ⟨_, _, hall⟩ := pn hones
          rcases hall t with h | h
          · rw [ht] at h; exact TLoc.noConfusion h
          · rw [ht] at h; exact TLoc.noConfusion h
      | running o =>
          obtain ⟨nr, nib, hdisj⟩ := pr o hones
          have hto : t = o := by
            by_cases h : t = o
            · exact h
            · exact absurd ht (nib t h).2
          subst hto
          rcases hdisj with ⟨hb, _, _, _⟩ | ⟨hb, hcl, hc1⟩
          · rw [ht] at hb
            exact TLoc.noConfusion hb
          · refine ⟨?_, ?_, ?_, ?_, ?_, ?_, ?_⟩ <;> dsimp only
            · exact le1
            · exact Or.inr hcl
            · exact fun _ => hc1
            · intro u r hu
              by_cases hut : u = t
              · subst hut
                rw [updateThread_self] at hu
                exact TLoc.noConfusion hu
              · rw [updateThread_other _ _ _ _ hut] at hu
                exact fv u r hu
            · intro h
              exact OnceState.noConfusion h
            · intro o₂ h
              exact OnceState.noConfusion h
            · intro _
              refine ⟨hcl, hc1, fun u => ?_⟩
              by_cases hut : u = t
              · subst hut
                rw [updateThread_self]
                exact ⟨fun hh => TLoc.noConfusion hh, fun hh => TLoc.noConfusion hh⟩
              · rw [updateThread_other _ _ _ _ hut]
                exact nib u hut
      | done =>
          exact absurd ht ((pd hones).2.2 t).2
  | retStep t ht =>
      cases hones : c₁.once with
      | notStarted =>
          obtain ⟨_, _, hall⟩ := pn hones
          rcases hall t with h | h
          · rw [ht] at h; exact TLoc.noConfusion h
          · rw [ht] at h; exact TLoc.noConfusion h
      | running o =>
          exact absurd ht ((pr o hones).1 t)
      | done =>
          obtain ⟨hcl, hc1, hnb⟩ := pd hones
          refine ⟨?_, ?_, ?_, ?_, ?_, ?_, ?_⟩ <;> dsimp only
          · exact le1
          · exact cv
          · exact cc
          · intro u r hu
            by_cases hut : u = t
            · subst hut
              rw [updateThread_self] at hu
              rw [← TLoc.finished.inj hu]
              exact hcl
            · rw [updateThread_other _ _ _ _ hut] at hu
              exact fv u r hu
          · intro h
            exact OnceState.noConfusion h
          · intro o h
            exact OnceState.noConfusion h
          · intro _
            refine ⟨hcl, hc1, fun u => ?_⟩
            by_cases hut : u = t
            · subst hut
              rw [updateThread_self]
              exact ⟨fun hh => TLoc.noConfusion hh, fun hh => TLoc.noConfusion hh⟩
            · rw [updateThread_other _ _ _ _ hut]
              exact hnb u



/-- The invariant holds in every reachable configuration. -/
theorem inv_reachable {cfg : Config} (h : Reachable cfg) : Inv cfg := by
  induction h with
  | refl => exact inv_init
  | tail _ hstep ih => exact inv_step ih hstep

/-- C9, confirmed: under unboundedly many goroutines calling
GetHttpClient concurrently before any SetHttpClient call, in every
reachable configuration of the interleaved semantics the pooled-client
construction has run at most once, and every goroutine that finished
received the same instance, the pooled client, by which point the
construction has run exactly once. -/
theorem getHttpClient_single_construction (cfg : Config)
    (h : Reachable cfg) :
    cfg.constructed ≤ 1 ∧
    ∀ t r, cfg.threads t = TLoc.finished r →
      r = some pooledClient ∧ cfg.constructed = 1 := by
  have inv := inv_reachable h
  refine ⟨inv.cons_le, fun t r hf => ⟨inv.finished_val t r hf, ?_⟩⟩
  cases hones : cfg.once with
  | notStarted =>
      rcases (inv.phase_not hones).2.2 t with hh | hh
      · rw [hf] at hh; exact TLoc.noConfusion hh
      · rw [hf] at hh; exact TLoc.noConfusion hh
  | running o =>
      rcases (inv.phase_run o hones).2.2 with ⟨_, _, _, hnf⟩ | ⟨_, _, hc1⟩
      · exact absurd hf (hnf t r)
      · exact hc1
  | done =>
      exact (inv.phase_done hones).2.1

/-- C9, witness: the theorem applied to the concrete reachable
configuration in which goroutine 0 has run GetHttpClient to completion
through the lazy path: it holds the pooled client and exactly one
construction has run. -/
theorem getHttpClient_single_construction_witness :
    trace5.constructed = 1 ∧
    trace5.threads 0 = TLoc.finished (some pooledClient) := by
  have h1 : Step initConfig trace1 := Step.fastMiss initConfig 0 rfl rfl
  have h2 : Step trace1 trace2 := Step.onceAcquire trace1 0 rfl rfl
  have h3 : Step trace2 trace3 := Step.bodyWrite trace2 0 rfl
  have h4 : Step trace3 trace4 := Step.bodyFinish trace3 0 rfl
  have h5 : Step trace4 trace5 := Step.retStep trace4 0 rfl
  have hreach : Reachable trace5 :=
    Relation.ReflTransGen.tail (Relation.ReflTransGen.tail
      (Relation.ReflTransGen.tail (Relation.ReflTransGen.tail
        (Relation.ReflTransGen.tail Relation.ReflTransGen.refl h1) h2) h3)
      h4) h5
  have hfin : trace5.threads 0 = TLoc.finished (some pooledClient) := rfl
  exact ⟨((getHttpClient_single_construction trace5 hreach).2 0
    (some pooledClient) hfin).2, hfin⟩

end Httptool
